import Mathlib

/-!
Verification development for the tabular-data utilities of
`python_utils_AndrewGarwood` (files `pd_utils.py` and `regex_utils.py`).

The embedding models:
  * Python string values of dataframe cells as `List Char` (Lean chars),
    with a `PyVal` type covering the value kinds the code meets
    (proper strings, `NaN` missing values, integers), and `PyVal.toStr`
    mirroring Python's `str()` on those kinds;
  * a pandas `DataFrame` with a default `RangeIndex` as an ordered list of
    column names plus an ordered list of rows (positional value lists);
  * Python `dict` objects (insertion-ordered) as association lists;
  * raising an exception as `Except.error` / a dedicated status constructor.

Functions keep the source's names: `extract_leaf` (regex_utils.py line 5),
`has_columns`, `map_key_to_row_indices`, `extract_duplicate_rows_from_key_map`
and `permuted_key_join` (pd_utils.py).  The module-level configuration flag
`ENABLE_OVERWRITE` of config.py is passed as the explicit parameter
`enable_overwrite` (the spec's overwrite policy: `true` is
OVERWRITE_IF_DIFFERENT, `false` is NEVER_OVERWRITE); `ENABLE_DETAILED_LOG`
only guards log emission, which has no effect on the data and is omitted.
-/

namespace PyU

abbrev Col := List Char
abbrev Key := List Char

/-- Character list of a Lean string literal, used to write Python strings. -/
def pys (s : String) : List Char := s.data

inductive PyErr where
  | valueError
deriving DecidableEq, Repr

/-- A dataframe cell value: a string, the float `NaN` pandas uses for a
missing value, or an integer. -/
inductive PyVal where
  | str (s : List Char)
  | nan
  | intv (n : Int)
deriving DecidableEq, Repr

/-- Python `str()` on the modelled value kinds: a string is unchanged,
`str(nan) = "nan"`, and an integer prints in decimal. -/
def PyVal.toStr : PyVal → List Char
  | .str s => s
  | .nan => pys "nan"
  | .intv n => pys (toString n)

/-! ### Python substring search and `extract_leaf` (regex_utils.py) -/

/-- The pattern `d` occurs in `s` starting at position `i`. -/
def occursAtB (s d : List Char) (i : Nat) : Bool :=
  decide ((s.drop i).take d.length = d)

def findLastOccAux (s d : List Char) : Nat → Option Nat
  | 0 => if occursAtB s d 0 then some 0 else none
  | i + 1 => if occursAtB s d (i + 1) then some (i + 1) else findLastOccAux s d i

/-- Position of the last occurrence of `d` in `s` (Python `s.rfind(d)`),
searching positions `0 .. s.length`. -/
def findLastOcc (s d : List Char) : Option Nat :=
  findLastOccAux s d s.length

/-- Python `d in s`: substring containment.  The empty string is contained
in every string. -/
def pyContains (s d : List Char) : Bool :=
  (findLastOcc s d).isSome

/-- Value of Python `s.rsplit(d, 1)[-1]` for a nonempty separator `d`:
the suffix of `s` after the last occurrence of `d`, or `s` itself when `d`
does not occur in `s`. -/
def rsplitLast (s d : List Char) : List Char :=
  match findLastOcc s d with
  | some i => s.drop (i + d.length)
  | none => s

/-- regex_utils.py line 5, `extract_leaf`:
`return s.rsplit(delimiter, 1)[-1] if delimiter in s else s`.
When `delimiter` is the empty string, `delimiter in s` is `True` for every
`s`, and `s.rsplit('', 1)` raises `ValueError: empty separator`. -/
def extract_leaf (s : List Char) (delimiter : List Char) : Except PyErr (List Char) :=
  if pyContains s delimiter then
    if delimiter = [] then .error .valueError
    else .ok (rsplitLast s delimiter)
  else .ok s

/-- The default delimiter `':'`. -/
def colonD : List Char := pys ":"

/-! ### DataFrame model -/

structure DataFrame where
  columns : List Col
  rows : List (List PyVal)
deriving DecidableEq, Repr

/-- Position of column `c` in a column list (first match). -/
def colIdx : List Col → Col → Option Nat
  | [], _ => none
  | c' :: rest, c => if c' = c then some 0 else (colIdx rest c).map (· + 1)

/-- Value of row `r` (a positional value list under schema `cols`) at
column `c`; defaults to the empty string off-schema. -/
def rowCell (cols : List Col) (r : List PyVal) (c : Col) : PyVal :=
  match colIdx cols c with
  | some j => r.getD j (.str [])
  | none => .str []

/-- `df.at[i, c]` for a dataframe with default `RangeIndex` (label = position). -/
def DataFrame.cell (df : DataFrame) (i : Nat) (c : Col) : PyVal :=
  match df.rows.get? i with
  | some r => rowCell df.columns r c
  | none => .str []

/-- `df.at[i, c] = v`. -/
def DataFrame.setCell (df : DataFrame) (i : Nat) (c : Col) (v : PyVal) : DataFrame :=
  match colIdx df.columns c, df.rows.get? i with
  | some j, some r => { df with rows := df.rows.set i (r.set j v) }
  | _, _ => df

/-- pd_utils.py line 21, `has_columns`:
`all(col in df.columns for col in cols_to_check)`. -/
def has_columns (df : DataFrame) (cols_to_check : List Col) : Bool :=
  cols_to_check.all fun c => (colIdx df.columns c).isSome

/-! ### Key map construction (pd_utils.py `map_key_to_row_indices`, lines 66-101) -/

abbrev KeyMap := List (Key × List Nat)

/-- Python `dict` lookup on an insertion-ordered association list. -/
def lookupKey : KeyMap → Key → Option (List Nat)
  | [], _ => none
  | (k', is) :: rest, k => if k' = k then some is else lookupKey rest k

/-- One loop iteration of `map_key_to_row_indices`: append row position `i`
to the bucket of `k`, creating the bucket at the end on first occurrence
(Python dicts preserve insertion order). -/
def insertKey : KeyMap → Key → Nat → KeyMap
  | [], k, i => [(k, [i])]
  | (k', is) :: rest, k, i =>
      if k' = k then (k', is ++ [i]) :: rest else (k', is) :: insertKey rest k i

/-- Key computed from a row value:
`str(row[key_col]) if not truncate else extract_leaf(str(row[key_col]), delimiter)`.
`rsplitLast` equals the value of `extract_leaf` in every non-raising case
(see `extract_leaf_eq_rsplitLast`). -/
def rowKeyStr (truncate : Bool) (delimiter : List Char) (v : PyVal) : Key :=
  if truncate then rsplitLast v.toStr delimiter else v.toStr

def buildKeyMapAux (keyOf : List PyVal → Key) : KeyMap → Nat → List (List PyVal) → KeyMap
  | m, _, [] => m
  | m, i, r :: rs => buildKeyMapAux keyOf (insertKey m (keyOf r) i) (i + 1) rs

/-- The key map the `for i, row in df.iterrows()` loop of
`map_key_to_row_indices` builds (rows enumerated from position 0). -/
def buildKeyMapFrom (df : DataFrame) (key_col : Col) (truncate : Bool)
    (delimiter : List Char) : KeyMap :=
  buildKeyMapAux (fun r => rowKeyStr truncate delimiter (rowCell df.columns r key_col)) [] 0 df.rows

/-- pd_utils.py lines 66-101, `map_key_to_row_indices`.
Raises `ValueError('Invalid Key Column')` when `key_col` is missing.  With
`truncate` and an empty `delimiter`, `extract_leaf` raises at the first row
(see `extract_leaf_empty_delimiter`), so the loop raises exactly when the
dataframe is nonempty.  Otherwise it returns the insertion-ordered key map. -/
def map_key_to_row_indices (df : DataFrame) (key_col : Col) (truncate : Bool)
    (delimiter : List Char) : Except PyErr KeyMap :=
  if ¬ has_columns df [key_col] then .error .valueError
  else if truncate = true ∧ delimiter = [] ∧ df.rows ≠ [] then .error .valueError
  else .ok (buildKeyMapFrom df key_col truncate delimiter)

/-! ### Duplicate-row extraction (pd_utils.py lines 103-113) -/

def origIndexCol : Col := pys "Original Index"

/-- The row positions listed by buckets of size greater than one, in bucket
(key first-occurrence) order:
`[i for indices in key_to_row_indices.values() if len(indices) > 1 for i in indices]`. -/
def dupRowIndices (m : KeyMap) : List Nat :=
  ((m.filter fun e => decide (1 < e.2.length)).map Prod.snd).flatten

/-- pd_utils.py lines 103-113, `extract_duplicate_rows_from_key_map`:
inserts an `'Original Index'` column at position 1 holding `df.index`
(positions, for a default `RangeIndex`), then selects the rows at
`dupRowIndices` via `df.iloc`. -/
def extract_duplicate_rows_from_key_map (df : DataFrame) (m : KeyMap) : DataFrame :=
  let df' : DataFrame :=
    { columns := df.columns.take 1 ++ [origIndexCol] ++ df.columns.drop 1,
      rows := (List.range df.rows.length).map fun i =>
        (df.rows.getD i []).take 1 ++ [PyVal.intv i] ++ (df.rows.getD i []).drop 1 }
  { columns := df'.columns, rows := (dupRowIndices m).filterMap fun i => df'.rows.get? i }

/-! ### The merge (pd_utils.py lines 144-246, `permuted_key_join`) -/

structure MergeStats where
  numUpdated : Nat
  numDuplicates : Nat
  numUnmatched : Nat
deriving DecidableEq, Repr

/-- The loop state of `permuted_key_join`: `update_dict`, `processed_keys`
(a Python `set`, modelled as a duplicate-free list), and the three counters. -/
structure LoopSt where
  updateDict : List ((Nat × Col) × List Char)
  processedKeys : List Key
  numUpdated : Nat
  numDuplicates : Nat
  numUnmatched : Nat
deriving DecidableEq, Repr

def initLoopSt : LoopSt := ⟨[], [], 0, 0, 0⟩

/-- `update_dict[(base_index, col)] = permuted_val`: replace in place, or
append a new entry (Python dicts keep the position of a re-assigned key). -/
def dictInsert : List ((Nat × Col) × List Char) → Nat × Col → List Char →
    List ((Nat × Col) × List Char)
  | [], k, v => [(k, v)]
  | (k', v') :: rest, k, v =>
      if k' = k then (k, v) :: rest else (k', v') :: dictInsert rest k v

/-- `processed_keys.add(leaf_key)`. -/
def setInsert (s : List Key) (k : Key) : List Key :=
  if k ∈ s then s else s ++ [k]

/-- The per-field update test of pd_utils.py lines 194-195:
`(permuted_val and base_val != permuted_val) and (ENABLE_OVERWRITE or not base_val)`
(a Python string is truthy exactly when nonempty). -/
def updateCond (base2 permuted : DataFrame) (base_index permuted_index : Nat)
    (enable_overwrite : Bool) (col : Col) : Bool :=
  let base_val := (base2.cell base_index col).toStr
  let permuted_val := (permuted.cell permuted_index col).toStr
  decide (permuted_val ≠ [] ∧ base_val ≠ permuted_val ∧
    (enable_overwrite = true ∨ base_val = []))

/-- The `for col in cols_to_add` field-copy loop of the unique-match branch
(pd_utils.py lines 191-209): for each column, read the (string-coerced) base
and secondary values, and when `updateCond` holds record the pending update
and increment `num_updated`. -/
def copyFields (base2 permuted : DataFrame) (base_index permuted_index : Nat)
    (enable_overwrite : Bool) : LoopSt → List Col → LoopSt
  | st, [] => st
  | st, col :: rest =>
      let permuted_val := (permuted.cell permuted_index col).toStr
      let st' :=
        if updateCond base2 permuted base_index permuted_index enable_overwrite col then
          { st with updateDict := dictInsert st.updateDict (base_index, col) permuted_val,
                    numUpdated := st.numUpdated + 1 }
        else st
      copyFields base2 permuted base_index permuted_index enable_overwrite st' rest

/-- One iteration of the `for permuted_key in permuted_key_map.keys()` loop
(pd_utils.py lines 182-238).  `e` is the key with its bucket
(`permuted_index = permuted_key_map[permuted_key][0]`).  The branches:
unique match (bucket of the leaf in the base map has length 1 and the leaf is
unprocessed), repeat match (leaf present and processed: count a duplicate),
no match (leaf absent: count unmatched).  A leaf present with a bucket of
length other than 1 and unprocessed falls through every branch: nothing
happens. -/
def classifyKey (base_key_map : KeyMap) (base2 permuted : DataFrame)
    (cols_to_add : List Col) (enable_overwrite : Bool) (st : LoopSt)
    (e : Key × List Nat) : LoopSt :=
  let permuted_index := e.2.headD 0
  let leaf_key := rsplitLast e.1 colonD
  match lookupKey base_key_map leaf_key with
  | some bucket =>
      if bucket.length = 1 ∧ leaf_key ∉ st.processedKeys then
        let st' := copyFields base2 permuted (bucket.headD 0) permuted_index
          enable_overwrite st cols_to_add
        { st' with processedKeys := setInsert st'.processedKeys leaf_key }
      else if leaf_key ∈ st.processedKeys then
        { st with numDuplicates := st.numDuplicates + 1 }
      else st
  | none => { st with numUnmatched := st.numUnmatched + 1 }

/-- The deferred-write pass (pd_utils.py lines 239-240):
`for (index, col), val in update_dict.items(): base_df.at[index, col] = val`. -/
def applyUpdates (df : DataFrame) (l : List ((Nat × Col) × List Char)) : DataFrame :=
  l.foldl (fun d e => d.setCell e.1.1 e.1.2 (.str e.2)) df

/-- Adding the missing `cols_to_add` columns (pd_utils.py lines 174-176):
`base_df[col] = ''` appends the column at the end, filled with empty strings. -/
def addMissingCols (df : DataFrame) (cols : List Col) : DataFrame :=
  cols.foldl (fun d c =>
    if has_columns d [c] then d
    else { columns := d.columns ++ [c], rows := d.rows.map (· ++ [PyVal.str []]) }) df

/-- How a call to `permuted_key_join` terminates.  The schema-check failure
at pd_utils.py line 173 executes `return ValueError('Invalid Key Column(s)')`:
the exception object is *returned* as the function's value, not raised —
`returnedErrorValue` records exactly that.  `raised` covers an exception
propagating out of an internal call. -/
inductive JoinStatus where
  | ok (stats : MergeStats)
  | returnedErrorValue
  | raised (e : PyErr)
deriving DecidableEq, Repr

/-- pd_utils.py lines 144-246, `permuted_key_join`.  The result carries the
final (`base_df`, `permuted_df`) pair — `base_df` is mutated in place by the
source — plus the termination status; the `MergeStats` counters are the
`num_updated`, `num_duplicates`, `num_unmatched_keys` values the source
prints before returning. -/
def permuted_key_join (base_df permuted_df : DataFrame) (base_key_col : Col)
    (permuted_key_col : Col) (cols_to_add : List Col) (enable_overwrite : Bool) :
    (DataFrame × DataFrame) × JoinStatus :=
  if ¬ (has_columns base_df [base_key_col] ∧
        has_columns permuted_df ([permuted_key_col] ++ cols_to_add)) then
    ((base_df, permuted_df), .returnedErrorValue)
  else
    let base2 := addMissingCols base_df cols_to_add
    match map_key_to_row_indices base2 base_key_col false colonD,
          map_key_to_row_indices permuted_df permuted_key_col false colonD with
    | .ok base_key_map, .ok permuted_key_map =>
        let fin := permuted_key_map.foldl
          (classifyKey base_key_map base2 permuted_df cols_to_add enable_overwrite) initLoopSt
        ((applyUpdates base2 fin.updateDict, permuted_df),
          .ok ⟨fin.numUpdated, fin.numDuplicates, fin.numUnmatched⟩)
    | .error e, _ => ((base2, permuted_df), .raised e)
    | .ok _, .error e => ((base2, permuted_df), .raised e)

/-- The state of the classification loop after the full pass of
`permuted_key_join` (the value of `update_dict`, `processed_keys` and the
three counters at pd_utils.py line 239). -/
def joinFinalState (base_df permuted_df : DataFrame) (base_key_col permuted_key_col : Col)
    (cols_to_add : List Col) (enable_overwrite : Bool) : LoopSt :=
  (buildKeyMapFrom permuted_df permuted_key_col false colonD).foldl
    (classifyKey
      (buildKeyMapFrom (addMissingCols base_df cols_to_add) base_key_col false colonD)
      (addMissingCols base_df cols_to_add) permuted_df cols_to_add enable_overwrite)
    initLoopSt

/-! ### Loop invariants of the classification pass -/

/-- Every processed leaf is a key of the base map with a singleton bucket
(only the unique-match branch adds to `processed_keys`). -/
def processedInv (base_key_map : KeyMap) (st : LoopSt) : Prop :=
  ∀ k ∈ st.processedKeys, ∃ b, lookupKey base_key_map k = some b ∧ b.length = 1

/-- Every pending update targets a `cols_to_add` column of the base row that
is the singleton bucket of some processed leaf. -/
def dictInv (base_key_map : KeyMap) (cols_to_add : List Col) (st : LoopSt) : Prop :=
  ∀ e ∈ st.updateDict, e.1.2 ∈ cols_to_add ∧
    ∃ leaf ∈ st.processedKeys, lookupKey base_key_map leaf = some [e.1.1]

/-! ### Concrete example tables used by witnesses and counterexamples -/

/-- Keys `a, b, a, b` with a payload column: the two size-2 buckets interleave. -/
def dfInterleaved : DataFrame :=
  { columns := [pys "k", pys "v"],
    rows := [[.str (pys "a"), .str (pys "r0")],
             [.str (pys "b"), .str (pys "r1")],
             [.str (pys "a"), .str (pys "r2")],
             [.str (pys "b"), .str (pys "r3")]] }

/-- A single row whose key value is the missing value `NaN`. -/
def dfNanKey : DataFrame := { columns := [pys "k"], rows := [[.nan]] }

/-- A row mixing a missing key with integer and empty payloads. -/
def dfMixed : DataFrame :=
  { columns := [pys "k", pys "A"],
    rows := [[.nan, .intv 7], [.str [], .str (pys "x")], [.intv 5, .nan]] }

/-- Base with one row keyed `"sku1"` and two empty payload fields. -/
def baseTwoFields : DataFrame :=
  { columns := [pys "k", pys "A", pys "B"],
    rows := [[.str (pys "sku1"), .str [], .str []]] }

/-- Secondary with one row keyed `"x:sku1"` carrying two payload values. -/
def secTwoFields : DataFrame :=
  { columns := [pys "k", pys "A", pys "B"],
    rows := [[.str (pys "x:sku1"), .str (pys "a1"), .str (pys "b1")]] }

/-- Base of the repeat-match scenario: one row, key `"sku1"`, empty Account. -/
def baseSku : DataFrame :=
  { columns := [pys "Item Name/Number", pys "Account"],
    rows := [[.str (pys "sku1"), .str []]] }

/-- Secondary with two *distinct* keys both normalizing to leaf `"sku1"`. -/
def secTwoDistinct : DataFrame :=
  { columns := [pys "Item", pys "Account"],
    rows := [[.str (pys "a:sku1"), .str (pys "A100")],
             [.str (pys "b:sku1"), .str (pys "A200")]] }

/-- Secondary with two rows carrying the *identical* key `"sku1"`. -/
def secTwoSame : DataFrame :=
  { columns := [pys "Item", pys "Account"],
    rows := [[.str (pys "sku1"), .str (pys "A100")],
             [.str (pys "sku1"), .str (pys "A200")]] }

/-- Base with a genuinely duplicated key `"sku1"` (bucket of size 2). -/
def baseDupKeys : DataFrame :=
  { columns := [pys "k", pys "A"],
    rows := [[.str (pys "sku1"), .str []], [.str (pys "sku1"), .str []]] }

/-- Secondary with the single key `"x:sku1"`. -/
def secOneKey : DataFrame :=
  { columns := [pys "k", pys "A"],
    rows := [[.str (pys "x:sku1"), .str (pys "A100")]] }

/-- One-row base of the conflict-policy family: key `"sku1"`, Account `b`. -/
def basePolicy (b : List Char) : DataFrame :=
  { columns := [pys "k", pys "Account"],
    rows := [[.str (pys "sku1"), .str b]] }

/-- One-row secondary of the conflict-policy family: key `"x:sku1"`, Account `s`. -/
def secPolicy (s : List Char) : DataFrame :=
  { columns := [pys "k2", pys "Account"],
    rows := [[.str (pys "x:sku1"), .str s]] }

/-- Base whose key column itself is listed in `cols_to_add`. -/
def baseKeyCopied : DataFrame :=
  { columns := [pys "k"], rows := [[.str (pys "sku1")]] }

/-- Secondary for `baseKeyCopied`: same single column `k`. -/
def secKeyCopied : DataFrame :=
  { columns := [pys "k"], rows := [[.str (pys "x:sku1")]] }

/-! ## Lemmas about substring search and `extract_leaf` -/

theorem findLastOccAux_empty_delim (s : List Char) (n : Nat) :
    findLastOccAux s [] n = some n := by
  cases n <;> simp [findLastOccAux, occursAtB]

/-- With an empty delimiter, `extract_leaf` always raises: `'' in s` is `True`
for every `s` and `s.rsplit('', 1)` raises `ValueError: empty separator`. -/
theorem extract_leaf_empty_delimiter (s : List Char) :
    extract_leaf s [] = .error .valueError := by
  simp [extract_leaf, pyContains, findLastOcc, findLastOccAux_empty_delim]

theorem findLastOcc_none_not_contains {s d : List Char} (hc : pyContains s d = false) :
    findLastOcc s d = none := by
  cases hf : findLastOcc s d with
  | none => rfl
  | some i => simp [pyContains, hf] at hc

/-- On a nonempty delimiter, `extract_leaf` never raises and returns
`rsplitLast`. -/
theorem extract_leaf_eq_rsplitLast (s d : List Char) (hd : d ≠ []) :
    extract_leaf s d = .ok (rsplitLast s d) := by
  unfold extract_leaf
  by_cases h : pyContains s d = true
  · simp [h, hd]
  · have h' : pyContains s d = false := by simpa using h
    rw [if_neg (by simp [h'])]
    rw [rsplitLast, findLastOcc_none_not_contains h']

theorem findLastOccAux_some {s d : List Char} :
    ∀ {n i : Nat}, findLastOccAux s d n = some i →
      occursAtB s d i = true ∧ i ≤ n ∧ ∀ j, i < j → j ≤ n → occursAtB s d j = false := by
  intro n
  induction n with
  | zero =>
      intro i h
      unfold findLastOccAux at h
      by_cases hc : occursAtB s d 0 = true
      · simp [hc] at h
        exact ⟨h ▸ hc, by omega, fun j hj hj' => by omega⟩
      · simp [hc] at h
  | succ n ih =>
      intro i h
      unfold findLastOccAux at h
      by_cases hc : occursAtB s d (n + 1) = true
      · simp [hc] at h
        subst h
        exact ⟨hc, Nat.le_refl _, fun j hj hj' => by omega⟩
      · simp [hc] at h
        obtain ⟨h1, h2, h3⟩ := ih h
        refine ⟨h1, Nat.le_trans h2 (Nat.le_succ _), fun j hj hj' => ?_⟩
        rcases Nat.lt_or_ge j (n + 1) with hlt | hge
        · exact h3 j hj (by omega)
        · have hj1 : j = n + 1 := by omega
          subst hj1
          simpa using hc

theorem occursAtB_bound {s d : List Char} (hd : d ≠ []) {i : Nat}
    (h : occursAtB s d i = true) : i + d.length ≤ s.length := by
  have h' : (s.drop i).take d.length = d := by simpa [occursAtB] using h
  have hlen : ((s.drop i).take d.length).length = d.length := by rw [h']
  rw [List.length_take, List.length_drop] at hlen
  have hd0 : d.length ≠ 0 := fun h0 => hd (List.length_eq_zero.mp h0)
  rcases Nat.le_total d.length (s.length - i) with hle | hge
  · omega
  · have : min d.length (s.length - i) = s.length - i := by omega
    omega

theorem occursAtB_decomp {s d : List Char} {i : Nat} (h : occursAtB s d i = true) :
    s = s.take i ++ d ++ s.drop (i + d.length) := by
  have h' : (s.drop i).take d.length = d := by simpa [occursAtB] using h
  conv_lhs => rw [← List.take_append_drop i s]
  rw [List.append_assoc]
  congr 1
  conv_lhs => rw [← List.take_append_drop d.length (s.drop i)]
  rw [h', List.drop_drop]

/-- C9 (amended): for every key `s` and every *nonempty* delimiter `d`,
`extract_leaf` is defined (returns `Except.ok`), and the returned string is
the substring of `s` after the last occurrence of `d` — `s` decomposes as
`p ++ d ++ result` with no occurrence of `d` starting after position
`p.length` — while `s` is returned unchanged when `d` does not occur.
(The unamended totality claim fails at the empty delimiter, see
`C9_counterexample`.) -/
theorem C9_extract_leaf_spec (s d : List Char) (hd : d ≠ []) :
    extract_leaf s d = .ok (rsplitLast s d) ∧
    (pyContains s d = true →
      ∃ p, s = p ++ d ++ rsplitLast s d ∧ ∀ j, p.length < j → occursAtB s d j = false) ∧
    (pyContains s d = false → rsplitLast s d = s) := by
  refine ⟨extract_leaf_eq_rsplitLast s d hd, ?_, ?_⟩
  · intro hc
    obtain ⟨i, hi⟩ := Option.isSome_iff_exists.mp (by simpa [pyContains] using hc)
    have hi' : findLastOccAux s d s.length = some i := hi
    obtain ⟨h1, h2, h3⟩ := findLastOccAux_some hi'
    have hb := occursAtB_bound hd h1
    have hr : rsplitLast s d = s.drop (i + d.length) := by simp [rsplitLast, hi]
    refine ⟨s.take i, by rw [hr]; exact occursAtB_decomp h1, ?_⟩
    intro j hj
    have hpl : (s.take i).length = i := by rw [List.length_take]; omega
    rw [hpl] at hj
    rcases Nat.le_total j s.length with hle | hgt
    · exact h3 j hj hle
    · by_cases hO : occursAtB s d j = true
      · have := occursAtB_bound hd hO
        have hd0 : d.length ≠ 0 := fun h0 => hd (List.length_eq_zero.mp h0)
        omega
      · simpa using hO
  · intro hc
    rw [rsplitLast, findLastOcc_none_not_contains hc]

/-- Witness for C9: the amended theorem applied at `s = "a:b:c"`, `d = ":"`,
together with the concrete leaf value. -/
theorem C9_extract_leaf_spec_witness :
    (colonD ≠ [] ∧ rsplitLast (pys "a:b:c") colonD = pys "c") ∧
    extract_leaf (pys "a:b:c") colonD = .ok (rsplitLast (pys "a:b:c") colonD) :=
  ⟨⟨by decide, by decide⟩, (C9_extract_leaf_spec (pys "a:b:c") colonD (by decide)).1⟩

/-- C9 counterexample: `extract_leaf` is not total over *every* delimiter
string — with the empty delimiter it raises `ValueError` (Python's
`rsplit` rejects an empty separator, and `'' in s` is always `True`).
The claim's three concrete examples do hold. -/
theorem C9_counterexample :
    extract_leaf (pys "abc") [] = .error .valueError ∧
    extract_leaf (pys "a:b:c") colonD = .ok (pys "c") ∧
    extract_leaf (pys "abc") colonD = .ok (pys "abc") ∧
    extract_leaf (pys "a:b:c") (pys "/") = .ok (pys "a:b:c") := by
  exact ⟨extract_leaf_empty_delimiter _, by rfl, by rfl, by rfl⟩

/-! ## Lemmas about the key map -/

theorem insertKey_flatten_perm (m : KeyMap) (k : Key) (i : Nat) :
    (((insertKey m k i).map Prod.snd).flatten).Perm
      ((m.map Prod.snd).flatten ++ [i]) := by
  induction m with
  | nil => simp [insertKey]
  | cons e rest ih =>
      obtain ⟨k', is⟩ := e
      by_cases h : k' = k
      · simp only [insertKey, if_pos h, List.map_cons, List.flatten_cons]
        rw [List.append_assoc, List.append_assoc]
        exact (@List.perm_append_comm _ [i] ((rest.map Prod.snd).flatten)).append_left is
      · simp only [insertKey, if_neg h, List.map_cons, List.flatten_cons]
        rw [List.append_assoc]
        exact ih.append_left is

theorem buildKeyMapAux_flatten_perm (f : List PyVal → Key) :
    ∀ (rs : List (List PyVal)) (m : KeyMap) (i : Nat),
      (((buildKeyMapAux f m i rs).map Prod.snd).flatten).Perm
        ((m.map Prod.snd).flatten ++ List.range' i rs.length) := by
  intro rs
  induction rs with
  | nil => intro m i; simp [buildKeyMapAux]
  | cons r rs ih =>
      intro m i
      have h1 := ih (insertKey m (f r) i) (i + 1)
      have h2 := (insertKey_flatten_perm m (f r) i).append_right (List.range' (i + 1) rs.length)
      have h3 : (((buildKeyMapAux f m i (r :: rs)).map Prod.snd).flatten).Perm
          (((m.map Prod.snd).flatten ++ [i]) ++ List.range' (i + 1) rs.length) :=
        h1.trans h2
      have h4 : ((m.map Prod.snd).flatten ++ [i]) ++ List.range' (i + 1) rs.length
          = (m.map Prod.snd).flatten ++ List.range' i (rs.length + 1) := by
        rw [List.append_assoc, List.range'_succ]
        rfl
      rw [h4] at h3
      simpa using h3

/-- C8: for every table and key column present in it, the bucket lists of the
key index built by `map_key_to_row_indices` form a permutation of
`0, …, rows-1`: their union is the full set of row positions and no position
occurs in more than one bucket (nor twice in one bucket). -/
theorem C8_index_complete (df : DataFrame) (key_col : Col) (truncate : Bool)
    (delimiter : List Char) (m : KeyMap)
    (h : map_key_to_row_indices df key_col truncate delimiter = .ok m) :
    ((m.map Prod.snd).flatten).Perm (List.range df.rows.length) := by
  have hm : m = buildKeyMapFrom df key_col truncate delimiter := by
    unfold map_key_to_row_indices at h
    split at h
    · exact absurd h (by simp)
    · split at h
      · exact absurd h (by simp)
      · injection h with h
        exact h.symm
  subst hm
  have := buildKeyMapAux_flatten_perm
    (fun r => rowKeyStr truncate delimiter (rowCell df.columns r key_col)) df.rows [] 0
  simpa [buildKeyMapFrom, List.range_eq_range'] using this

/-- Witness for C8: applied to the four-row table with keys `a, b, a, b`;
the buckets `[0, 2]` and `[1, 3]` together are a permutation of `0, 1, 2, 3`. -/
theorem C8_index_complete_witness :
    ((((buildKeyMapFrom dfInterleaved (pys "k") false colonD).map Prod.snd).flatten).Perm
      (List.range dfInterleaved.rows.length)) :=
  C8_index_complete dfInterleaved (pys "k") false colonD _ rfl

/-! ## Bucket bounds and within-bucket ordering -/

theorem insertKey_bucket_bound (k : Key) (i bnd : Nat) (hi : bnd ≤ i) :
    ∀ m : KeyMap, (∀ e ∈ m, (∀ x ∈ e.2, x < bnd) ∧ e.2.Pairwise (· < ·)) →
      ∀ e ∈ insertKey m k i, (∀ x ∈ e.2, x < i + 1) ∧ e.2.Pairwise (· < ·) := by
  intro m
  induction m with
  | nil =>
      intro _ e he
      simp only [insertKey, List.mem_singleton] at he
      subst he
      exact ⟨by simp, by simp⟩
  | cons e' rest ih =>
      obtain ⟨k', is⟩ := e'
      intro hm e he
      by_cases h : k' = k
      · simp only [insertKey, if_pos h] at he
        rcases List.mem_cons.mp he with h1 | h1
        · subst h1
          obtain ⟨hb, hp⟩ := hm (k', is) (by simp)
          refine ⟨?_, ?_⟩
          · intro x hx
            rcases List.mem_append.mp hx with hx | hx
            · have := hb x hx; omega
            · simp at hx; omega
          · refine List.pairwise_append.mpr ⟨hp, by simp, ?_⟩
            intro a ha b hb'
            simp only [List.mem_singleton] at hb'
            subst hb'
            exact Nat.lt_of_lt_of_le (hb a ha) hi
        · obtain ⟨hb, hp⟩ := hm e (List.mem_cons_of_mem _ h1)
          exact ⟨fun x hx => by have := hb x hx; omega, hp⟩
      · simp only [insertKey, if_neg h] at he
        rcases List.mem_cons.mp he with h1 | h1
        · subst h1
          obtain ⟨hb, hp⟩ := hm (k', is) (by simp)
          exact ⟨fun x hx => by have := hb x hx; omega, hp⟩
        · exact ih (fun e he => hm e (List.mem_cons_of_mem _ he)) e h1

theorem buildKeyMapAux_bucket_bound (f : List PyVal → Key) :
    ∀ (rs : List (List PyVal)) (m : KeyMap) (i : Nat),
      (∀ e ∈ m, (∀ x ∈ e.2, x < i) ∧ e.2.Pairwise (· < ·)) →
      ∀ e ∈ buildKeyMapAux f m i rs,
        (∀ x ∈ e.2, x < i + rs.length) ∧ e.2.Pairwise (· < ·) := by
  intro rs
  induction rs with
  | nil => intro m i hm e he; simpa [buildKeyMapAux] using hm e he
  | cons r rs ih =>
      intro m i hm e he
      have h1 := insertKey_bucket_bound (f r) i i (Nat.le_refl _) m hm
      obtain ⟨hb, hp⟩ := ih (insertKey m (f r) i) (i + 1) h1 e he
      exact ⟨fun x hx => by have := hb x hx; simp only [List.length_cons]; omega, hp⟩

/-- Every bucket of a built key map lists valid row positions in strictly
increasing (original) order. -/
theorem buildKeyMapFrom_buckets (df : DataFrame) (key_col : Col) (truncate : Bool)
    (delimiter : List Char) :
    ∀ e ∈ buildKeyMapFrom df key_col truncate delimiter,
      (∀ x ∈ e.2, x < df.rows.length) ∧ e.2.Pairwise (· < ·) := by
  intro e he
  have := buildKeyMapAux_bucket_bound
    (fun r => rowKeyStr truncate delimiter (rowCell df.columns r key_col))
    df.rows [] 0 (by simp) e he
  simpa using this

theorem filterMap_get?_eq_map {α : Type} {l : List Nat} {g : Nat → α} {rows : List α}
    (h : ∀ i ∈ l, rows.get? i = some (g i)) :
    (l.filterMap fun i => rows.get? i) = l.map g := by
  induction l with
  | nil => rfl
  | cons x xs ih =>
      rw [List.filterMap_cons, h x (by simp), List.map_cons,
        ih fun i hi => h i (List.mem_cons_of_mem _ hi)]

/-- C5 (amended): `extract_duplicate_rows_from_key_map` on a table and the
key map built from it returns exactly the rows whose position lies in a
bucket of size greater than one, each row carrying its original position in
the extra `'Original Index'` column inserted at schema position 1 — but
ordered bucket by bucket (keys in first-occurrence order, positions in
original order within each bucket), *not* in global original row order
(see `C5_counterexample`). -/
theorem C5_duplicates_spec (df : DataFrame) (key_col : Col) (truncate : Bool)
    (delimiter : List Char) (m : KeyMap)
    (hm : m = buildKeyMapFrom df key_col truncate delimiter) :
    ((extract_duplicate_rows_from_key_map df m).columns
        = df.columns.take 1 ++ [origIndexCol] ++ df.columns.drop 1) ∧
    ((extract_duplicate_rows_from_key_map df m).rows
        = (dupRowIndices m).map fun i =>
            (df.rows.getD i []).take 1 ++ [PyVal.intv i] ++ (df.rows.getD i []).drop 1) ∧
    (∀ i, i ∈ dupRowIndices m ↔ ∃ e ∈ m, 1 < e.2.length ∧ i ∈ e.2) ∧
    (∀ e ∈ m, e.2.Pairwise (· < ·)) := by
  have hmem : ∀ i, i ∈ dupRowIndices m ↔ ∃ e ∈ m, 1 < e.2.length ∧ i ∈ e.2 := by
    intro i
    unfold dupRowIndices
    rw [List.mem_flatten]
    constructor
    · rintro ⟨l, hl, hil⟩
      obtain ⟨e, he, rfl⟩ := List.mem_map.mp hl
      have he' := List.mem_filter.mp he
      exact ⟨e, he'.1, by simpa using he'.2, hil⟩
    · rintro ⟨e, he, hlen, hie⟩
      exact ⟨e.2, List.mem_map.mpr ⟨e, List.mem_filter.mpr ⟨he, by simpa using hlen⟩, rfl⟩, hie⟩
  have hbound : ∀ i ∈ dupRowIndices m, i < df.rows.length := by
    intro i hi
    obtain ⟨e, he, _, hie⟩ := (hmem i).mp hi
    exact ((buildKeyMapFrom_buckets df key_col truncate delimiter e (hm ▸ he)).1) i hie
  refine ⟨rfl, ?_, hmem, fun e he => (buildKeyMapFrom_buckets df key_col truncate delimiter e (hm ▸ he)).2⟩
  apply filterMap_get?_eq_map
  intro i hi
  rw [List.get?_map, List.get?_range (hbound i hi)]
  rfl

/-- Witness for C5: the amended row characterization evaluated on the
interleaved-keys table. -/
theorem C5_duplicates_spec_witness :
    (extract_duplicate_rows_from_key_map dfInterleaved
        (buildKeyMapFrom dfInterleaved (pys "k") false colonD)).rows
      = (dupRowIndices (buildKeyMapFrom dfInterleaved (pys "k") false colonD)).map fun i =>
          (dfInterleaved.rows.getD i []).take 1 ++ [PyVal.intv i]
            ++ (dfInterleaved.rows.getD i []).drop 1 :=
  (C5_duplicates_spec dfInterleaved (pys "k") false colonD _ rfl).2.1

/-- C5 counterexample: on keys `a, b, a, b` the returned original positions
are `0, 2, 1, 3` — bucket order — while the claimed source-table relative
order would be `0, 1, 2, 3`. -/
theorem C5_counterexample :
    ((extract_duplicate_rows_from_key_map dfInterleaved
        (buildKeyMapFrom dfInterleaved (pys "k") false colonD)).rows.map
        fun r => r.getD 1 (.str []))
      = [.intv 0, .intv 2, .intv 1, .intv 3] ∧
    ((extract_duplicate_rows_from_key_map dfInterleaved
        (buildKeyMapFrom dfInterleaved (pys "k") false colonD)).rows.map
        fun r => r.getD 1 (.str []))
      ≠ ((List.range dfInterleaved.rows.length).filter fun i =>
          decide (i ∈ dupRowIndices (buildKeyMapFrom dfInterleaved (pys "k") false colonD))).map
          (fun i => PyVal.intv i) := by
  exact ⟨by rfl, by decide⟩

/-! ## Lookup membership in a built key map -/

theorem lookupKey_insertKey_self (m : KeyMap) (k : Key) (i : Nat) :
    ∃ b, lookupKey (insertKey m k i) k = some b ∧ i ∈ b := by
  induction m with
  | nil => exact ⟨[i], by simp [insertKey, lookupKey], by simp⟩
  | cons e rest ih =>
      obtain ⟨k', is⟩ := e
      by_cases h : k' = k
      · exact ⟨is ++ [i], by simp [insertKey, h, lookupKey], by simp⟩
      · obtain ⟨b, hb, hib⟩ := ih
        exact ⟨b, by simp [insertKey, h, lookupKey, hb], hib⟩

theorem lookupKey_insertKey_mono {m : KeyMap} {k : Key} {b : List Nat} {j : Nat}
    (hb : lookupKey m k = some b) (hj : j ∈ b) (k' : Key) (i : Nat) :
    ∃ b', lookupKey (insertKey m k' i) k = some b' ∧ j ∈ b' := by
  induction m with
  | nil => simp [lookupKey] at hb
  | cons e rest ih =>
      obtain ⟨k₀, is⟩ := e
      simp only [insertKey]
      by_cases h0 : k₀ = k'
      · rw [if_pos h0]
        by_cases h1 : k₀ = k
        · simp only [lookupKey, if_pos h1] at hb
          injection hb with hb
          refine ⟨is ++ [i], ?_, ?_⟩
          · simp only [lookupKey, if_pos h1]
          · rw [← hb] at hj
            exact List.mem_append.mpr (Or.inl hj)
        · simp only [lookupKey, if_neg h1] at hb
          refine ⟨b, ?_, hj⟩
          simp only [lookupKey, if_neg h1]
          exact hb
      · rw [if_neg h0]
        by_cases h1 : k₀ = k
        · simp only [lookupKey, if_pos h1] at hb
          injection hb with hb
          refine ⟨is, ?_, ?_⟩
          · simp only [lookupKey, if_pos h1]
          · rw [← hb] at hj
            exact hj
        · simp only [lookupKey, if_neg h1] at hb
          obtain ⟨b', hb', hjb'⟩ := ih hb
          refine ⟨b', ?_, hjb'⟩
          simp only [lookupKey, if_neg h1]
          exact hb'

theorem lookupKey_buildKeyMapAux_mono (f : List PyVal → Key) :
    ∀ (rs : List (List PyVal)) (m : KeyMap) (i : Nat) {k : Key} {b : List Nat} {j : Nat},
      lookupKey m k = some b → j ∈ b →
      ∃ b', lookupKey (buildKeyMapAux f m i rs) k = some b' ∧ j ∈ b' := by
  intro rs
  induction rs with
  | nil => intro m i k b j hb hj; exact ⟨b, hb, hj⟩
  | cons r rs ih =>
      intro m i k b j hb hj
      obtain ⟨b', hb', hjb'⟩ := lookupKey_insertKey_mono hb hj (f r) i
      exact ih (insertKey m (f r) i) (i + 1) hb' hjb'

/-- Row `j` of the scanned slice appears in the bucket of its own computed key. -/
theorem buildKeyMapAux_mem_lookup (f : List PyVal → Key) :
    ∀ (rs : List (List PyVal)) (m : KeyMap) (i : Nat) (j : Nat), j < rs.length →
      ∃ b, lookupKey (buildKeyMapAux f m i rs) (f (rs.getD j [])) = some b ∧ (i + j) ∈ b := by
  intro rs
  induction rs with
  | nil => intro m i j hj; simp at hj
  | cons r rs ih =>
      intro m i j hj
      match j with
      | 0 =>
          obtain ⟨b, hb, hib⟩ := lookupKey_insertKey_self m (f r) i
          obtain ⟨b', hb', hib'⟩ :=
            lookupKey_buildKeyMapAux_mono f rs (insertKey m (f r) i) (i + 1) hb hib
          exact ⟨b', by simpa [buildKeyMapAux] using hb', by simpa using hib'⟩
      | j + 1 =>
          obtain ⟨b, hb, hib⟩ := ih (insertKey m (f r) i) (i + 1) j (by simpa using hj)
          refine ⟨b, by simpa [buildKeyMapAux] using hb, ?_⟩
          have : i + 1 + j = i + (j + 1) := by omega
          simpa [this] using hib

/-! ## Column preservation under `addMissingCols` -/

theorem colIdx_append_of_isSome {l : List Col} {c : Col}
    (h : (colIdx l c).isSome = true) (l' : List Col) :
    colIdx (l ++ l') c = colIdx l c := by
  induction l with
  | nil => simp [colIdx] at h
  | cons c' rest ih =>
      by_cases hc : c' = c
      · simp [colIdx, hc]
      · simp only [colIdx, if_neg hc, Option.isSome_map'] at h
        simp only [List.cons_append, colIdx, if_neg hc]
        exact congrArg (Option.map fun x => x + 1) (ih h)

theorem has_columns_addMissingCols {df : DataFrame} {c : Col}
    (h : has_columns df [c] = true) (cols : List Col) :
    has_columns (addMissingCols df cols) [c] = true := by
  simp only [has_columns, List.all_cons, List.all_nil, Bool.and_true] at h ⊢
  unfold addMissingCols
  induction cols generalizing df with
  | nil => exact h
  | cons x xs ih =>
      rw [List.foldl_cons]
      apply ih
      split
      · exact h
      · show (colIdx (df.columns ++ [x]) c).isSome = true
        rw [colIdx_append_of_isSome h]
        exact h

/-- When the schema guard of `permuted_key_join` passes, both internal
`map_key_to_row_indices` calls succeed. -/
theorem permuted_key_join_ok (base_df permuted_df : DataFrame) (base_key_col : Col)
    (permuted_key_col : Col) (cols_to_add : List Col) (enable_overwrite : Bool)
    (hg : has_columns base_df [base_key_col] = true ∧
          has_columns permuted_df ([permuted_key_col] ++ cols_to_add) = true) :
    (permuted_key_join base_df permuted_df base_key_col permuted_key_col cols_to_add
        enable_overwrite)
      = ((applyUpdates (addMissingCols base_df cols_to_add)
            (joinFinalState base_df permuted_df base_key_col permuted_key_col cols_to_add
              enable_overwrite).updateDict,
          permuted_df),
         .ok ⟨(joinFinalState base_df permuted_df base_key_col permuted_key_col cols_to_add
                enable_overwrite).numUpdated,
              (joinFinalState base_df permuted_df base_key_col permuted_key_col cols_to_add
                enable_overwrite).numDuplicates,
              (joinFinalState base_df permuted_df base_key_col permuted_key_col cols_to_add
                enable_overwrite).numUnmatched⟩) := by
  have hbase2 : has_columns (addMissingCols base_df cols_to_add) [base_key_col] = true :=
    has_columns_addMissingCols hg.1 cols_to_add
  have hpk : has_columns permuted_df [permuted_key_col] = true := by
    have := hg.2
    simp only [has_columns, List.cons_append, List.nil_append, List.all_cons] at this ⊢
    simp only [Bool.and_eq_true] at this
    simp [this.1]
  have h1 : map_key_to_row_indices (addMissingCols base_df cols_to_add) base_key_col false colonD
      = .ok (buildKeyMapFrom (addMissingCols base_df cols_to_add) base_key_col false colonD) := by
    simp [map_key_to_row_indices, hbase2]
  have h2 : map_key_to_row_indices permuted_df permuted_key_col false colonD
      = .ok (buildKeyMapFrom permuted_df permuted_key_col false colonD) := by
    simp [map_key_to_row_indices, hpk]
  have hg2' : has_columns permuted_df (permuted_key_col :: cols_to_add) = true := hg.2
  unfold permuted_key_join
  rw [if_neg (by simp [hg.1, hg2'])]
  simp only [h1, h2]
  rfl

/-- C6 (amended): a missing, empty or non-string key value never halts the
index build or the merge; it is coerced with Python `str()` — the missing
value becomes the string `"nan"`, an integer its decimal form, an empty
string stays empty — and the row participates in the key map under that
coerced key.  (The unamended "coerced to the empty string" fails: see
`C6_counterexample`.) -/
theorem C6_coercion_spec (base_df permuted_df df : DataFrame)
    (base_key_col permuted_key_col key_col : Col) (cols_to_add : List Col)
    (enable_overwrite truncate : Bool) (delimiter : List Char)
    (hc : has_columns df [key_col] = true) (htd : truncate = true → delimiter ≠ [])
    (hg : has_columns base_df [base_key_col] = true ∧
          has_columns permuted_df ([permuted_key_col] ++ cols_to_add) = true) :
    (map_key_to_row_indices df key_col truncate delimiter
        = .ok (buildKeyMapFrom df key_col truncate delimiter)) ∧
    (∀ i, i < df.rows.length → ∃ b,
        lookupKey (buildKeyMapFrom df key_col truncate delimiter)
          (rowKeyStr truncate delimiter (rowCell df.columns (df.rows.getD i []) key_col))
          = some b ∧ i ∈ b) ∧
    (∃ stats, (permuted_key_join base_df permuted_df base_key_col permuted_key_col
        cols_to_add enable_overwrite).2 = .ok stats) := by
  refine ⟨?_, ?_, ?_⟩
  · have hguard2 : ¬ (truncate = true ∧ delimiter = [] ∧ df.rows ≠ []) := by
      rintro ⟨h1, h2, _⟩
      exact htd h1 h2
    simp [map_key_to_row_indices, hc, hguard2]
  · intro i hi
    have := buildKeyMapAux_mem_lookup
      (fun r => rowKeyStr truncate delimiter (rowCell df.columns r key_col)) df.rows [] 0 i hi
    simpa [buildKeyMapFrom] using this
  · rw [permuted_key_join_ok base_df permuted_df base_key_col permuted_key_col cols_to_add
      enable_overwrite hg]
    exact ⟨_, rfl⟩

/-- Witness for C6: the mixed table (a `NaN` key, an empty-string key and an
integer key) indexes without error, and the merge over it returns ok. -/
theorem C6_coercion_spec_witness :
    (has_columns dfMixed [pys "k"] = true) ∧
    map_key_to_row_indices dfMixed (pys "k") false colonD
      = .ok (buildKeyMapFrom dfMixed (pys "k") false colonD) :=
  ⟨by rfl,
    (C6_coercion_spec baseSku secTwoDistinct dfMixed (pys "Item Name/Number") (pys "Item")
      (pys "k") [pys "Account"] false false colonD (by rfl)
      (fun h => absurd h (by decide)) ⟨by rfl, by rfl⟩).1⟩

/-- C6 counterexample: a missing (`NaN`) key is coerced to the string
`"nan"`, not to the empty string — the built index has a bucket under
`"nan"` and none under `""`. -/
theorem C6_counterexample :
    map_key_to_row_indices dfNanKey (pys "k") false colonD = .ok [(pys "nan", [0])] ∧
    pys "nan" ≠ [] ∧
    lookupKey [(pys "nan", [0])] [] = none := by
  exact ⟨by rfl, by decide, by rfl⟩

/-! ## The classification loop: basic lemmas -/

theorem copyFields_processedKeys (base2 permuted : DataFrame) (bidx pidx : Nat) (ow : Bool) :
    ∀ (cols : List Col) (st : LoopSt),
      (copyFields base2 permuted bidx pidx ow st cols).processedKeys = st.processedKeys := by
  intro cols
  induction cols with
  | nil => intro st; rfl
  | cons c rest ih =>
      intro st
      simp only [copyFields]
      split
      · rw [ih]
      · rw [ih]

theorem copyFields_numDuplicates (base2 permuted : DataFrame) (bidx pidx : Nat) (ow : Bool) :
    ∀ (cols : List Col) (st : LoopSt),
      (copyFields base2 permuted bidx pidx ow st cols).numDuplicates = st.numDuplicates := by
  intro cols
  induction cols with
  | nil => intro st; rfl
  | cons c rest ih =>
      intro st
      simp only [copyFields]
      split
      · rw [ih]
      · rw [ih]

theorem copyFields_numUnmatched (base2 permuted : DataFrame) (bidx pidx : Nat) (ow : Bool) :
    ∀ (cols : List Col) (st : LoopSt),
      (copyFields base2 permuted bidx pidx ow st cols).numUnmatched = st.numUnmatched := by
  intro cols
  induction cols with
  | nil => intro st; rfl
  | cons c rest ih =>
      intro st
      simp only [copyFields]
      split
      · rw [ih]
      · rw [ih]

theorem copyFields_numUpdated (base2 permuted : DataFrame) (bidx pidx : Nat) (ow : Bool) :
    ∀ (cols : List Col) (st : LoopSt),
      (copyFields base2 permuted bidx pidx ow st cols).numUpdated
        = st.numUpdated + (cols.filter (updateCond base2 permuted bidx pidx ow)).length := by
  intro cols
  induction cols with
  | nil => intro st; simp [copyFields]
  | cons c rest ih =>
      intro st
      simp only [copyFields, List.filter_cons]
      by_cases h : updateCond base2 permuted bidx pidx ow c = true
      · simp [h, ih]
        omega
      · simp [h, ih]

theorem mem_setInsert {s : List Key} {k' k : Key} (h : k ∈ setInsert s k') :
    k ∈ s ∨ k = k' := by
  unfold setInsert at h
  split at h
  · exact Or.inl h
  · rcases List.mem_append.mp h with h | h
    · exact Or.inl h
    · simp at h
      exact Or.inr h

theorem self_mem_setInsert (s : List Key) (k : Key) : k ∈ setInsert s k := by
  unfold setInsert
  split
  · assumption
  · simp

theorem subset_setInsert (s : List Key) (k' : Key) : ∀ k ∈ s, k ∈ setInsert s k' := by
  intro k hk
  unfold setInsert
  split
  · exact hk
  · exact List.mem_append.mpr (Or.inl hk)

/-- The classification step preserves the processed-keys invariant. -/
theorem processedInv_classifyKey {bm : KeyMap} {base2 permuted : DataFrame}
    {cols : List Col} {ow : Bool} {st : LoopSt} {e : Key × List Nat}
    (h : processedInv bm st) :
    processedInv bm (classifyKey bm base2 permuted cols ow st e) := by
  cases hl : lookupKey bm (rsplitLast e.1 colonD) with
  | none =>
      simp only [classifyKey, hl]
      exact h
  | some bucket =>
      simp only [classifyKey, hl]
      by_cases hu : bucket.length = 1 ∧ rsplitLast e.1 colonD ∉ st.processedKeys
      · rw [if_pos hu]
        intro k hk
        have hk' : k ∈ setInsert
            (copyFields base2 permuted (bucket.headD 0) (e.2.headD 0) ow st cols).processedKeys
            (rsplitLast e.1 colonD) := hk
        rw [copyFields_processedKeys] at hk'
        rcases mem_setInsert hk' with hk'' | hk''
        · exact h k hk''
        · subst hk''
          exact ⟨bucket, hl, hu.1⟩
      · rw [if_neg hu]
        split
        · exact h
        · exact h

/-- A secondary key whose leaf has a base bucket of size other than one (and
which therefore cannot be in the processed set) falls through every branch of
the loop body: the state is completely unchanged. -/
theorem classifyKey_skip {bm : KeyMap} {base2 permuted : DataFrame}
    {cols : List Col} {ow : Bool} {st : LoopSt} {e : Key × List Nat} {bucket : List Nat}
    (hinv : processedInv bm st)
    (hl : lookupKey bm (rsplitLast e.1 colonD) = some bucket)
    (hlen : 1 < bucket.length) :
    classifyKey bm base2 permuted cols ow st e = st := by
  simp only [classifyKey, hl]
  rw [if_neg, if_neg]
  · intro hmem
    obtain ⟨b, hb, hb1⟩ := hinv _ hmem
    rw [hl] at hb
    injection hb with hb
    rw [← hb] at hb1
    omega
  · rintro ⟨h1, _⟩
    omega

theorem processedInv_foldl {bm : KeyMap} {base2 permuted : DataFrame}
    {cols : List Col} {ow : Bool} :
    ∀ (l : List (Key × List Nat)) (st : LoopSt), processedInv bm st →
      processedInv bm (l.foldl (classifyKey bm base2 permuted cols ow) st) := by
  intro l
  induction l with
  | nil => intro st h; exact h
  | cons e rest ih =>
      intro st h
      exact ih _ (processedInv_classifyKey h)

theorem processedInv_init (bm : KeyMap) : processedInv bm initLoopSt := by
  intro k hk
  simp [initLoopSt] at hk

/-- C7: a secondary key whose leaf occurs in the base index with a bucket of
more than one position (a base table with genuine duplicate keys) is never a
unique match: it contributes no pending field update and no counter change —
dropping it from the iteration leaves the classification state untouched —
and the merge still terminates normally (no error is raised or reported). -/
theorem C7_base_duplicate_keys_silent (base_df permuted_df : DataFrame)
    (base_key_col permuted_key_col : Col) (cols_to_add : List Col)
    (enable_overwrite : Bool) (l1 l2 : List (Key × List Nat)) (e : Key × List Nat)
    (bucket : List Nat)
    (hg : has_columns base_df [base_key_col] = true ∧
          has_columns permuted_df ([permuted_key_col] ++ cols_to_add) = true)
    (hsplit : buildKeyMapFrom permuted_df permuted_key_col false colonD = l1 ++ e :: l2)
    (hb : lookupKey
        (buildKeyMapFrom (addMissingCols base_df cols_to_add) base_key_col false colonD)
        (rsplitLast e.1 colonD) = some bucket)
    (hlen : 1 < bucket.length) :
    ((buildKeyMapFrom permuted_df permuted_key_col false colonD).foldl
        (classifyKey
          (buildKeyMapFrom (addMissingCols base_df cols_to_add) base_key_col false colonD)
          (addMissingCols base_df cols_to_add) permuted_df cols_to_add enable_overwrite)
        initLoopSt
      = (l1 ++ l2).foldl
          (classifyKey
            (buildKeyMapFrom (addMissingCols base_df cols_to_add) base_key_col false colonD)
            (addMissingCols base_df cols_to_add) permuted_df cols_to_add enable_overwrite)
          initLoopSt) ∧
    (∃ stats, (permuted_key_join base_df permuted_df base_key_col permuted_key_col
        cols_to_add enable_overwrite).2 = .ok stats) := by
  constructor
  · rw [hsplit, List.foldl_append, List.foldl_append, List.foldl_cons]
    rw [classifyKey_skip (processedInv_foldl l1 initLoopSt (processedInv_init _)) hb hlen]
  · rw [permuted_key_join_ok base_df permuted_df base_key_col permuted_key_col cols_to_add
      enable_overwrite hg]
    exact ⟨_, rfl⟩

/-- Witness for C7: a base table with the key `"sku1"` duplicated, a
secondary key `"x:sku1"`; its leaf's bucket is `[0, 1]`, the loop over the
one-entry secondary map equals the loop over no entries, and the run
returns ok (the counters all stay `0`: the skip is silent). -/
theorem C7_base_duplicate_keys_silent_witness :
    ((buildKeyMapFrom secOneKey (pys "k") false colonD).foldl
        (classifyKey
          (buildKeyMapFrom (addMissingCols baseDupKeys [pys "A"]) (pys "k") false colonD)
          (addMissingCols baseDupKeys [pys "A"]) secOneKey [pys "A"] false)
        initLoopSt
      = (([] ++ []) : List (Key × List Nat)).foldl
          (classifyKey
            (buildKeyMapFrom (addMissingCols baseDupKeys [pys "A"]) (pys "k") false colonD)
            (addMissingCols baseDupKeys [pys "A"]) secOneKey [pys "A"] false)
          initLoopSt) ∧
    (permuted_key_join baseDupKeys secOneKey (pys "k") (pys "k") [pys "A"] false).2
      = .ok ⟨0, 0, 0⟩ :=
  ⟨(C7_base_duplicate_keys_silent baseDupKeys secOneKey (pys "k") (pys "k") [pys "A"] false
      [] [] (pys "x:sku1", [0]) [0, 1] ⟨by rfl, by rfl⟩ (by rfl) (by rfl) (by decide)).1,
    by rfl⟩

/-- C1 (amended): per loop iteration of the merge, the `duplicate` and
`unmatched` counters count secondary keys — a repeat match adds exactly 1 to
`duplicate`, a missing leaf adds exactly 1 to `unmatched`, and neither touches
the others — while the `updated` counter counts individual *fields*: a unique
match increments it by the number of `cols_to_add` columns whose update
condition holds, which can exceed 1 (the unamended "at most 1 per key"
reading fails, see `C1_counterexample`). -/
theorem C1_stats_semantics (bm : KeyMap) (base2 permuted : DataFrame) (cols : List Col)
    (ow : Bool) (st : LoopSt) (e : Key × List Nat) (bucket : List Nat) :
    (lookupKey bm (rsplitLast e.1 colonD) = some bucket →
      bucket.length = 1 → rsplitLast e.1 colonD ∉ st.processedKeys →
      (classifyKey bm base2 permuted cols ow st e).numUpdated
          = st.numUpdated
            + (cols.filter (updateCond base2 permuted (bucket.headD 0) (e.2.headD 0) ow)).length ∧
      (classifyKey bm base2 permuted cols ow st e).numDuplicates = st.numDuplicates ∧
      (classifyKey bm base2 permuted cols ow st e).numUnmatched = st.numUnmatched) ∧
    (lookupKey bm (rsplitLast e.1 colonD) = some bucket →
      rsplitLast e.1 colonD ∈ st.processedKeys →
      (classifyKey bm base2 permuted cols ow st e).numDuplicates = st.numDuplicates + 1 ∧
      (classifyKey bm base2 permuted cols ow st e).numUpdated = st.numUpdated ∧
      (classifyKey bm base2 permuted cols ow st e).numUnmatched = st.numUnmatched) ∧
    (lookupKey bm (rsplitLast e.1 colonD) = none →
      (classifyKey bm base2 permuted cols ow st e).numUnmatched = st.numUnmatched + 1 ∧
      (classifyKey bm base2 permuted cols ow st e).numUpdated = st.numUpdated ∧
      (classifyKey bm base2 permuted cols ow st e).numDuplicates = st.numDuplicates) := by
  refine ⟨?_, ?_, ?_⟩
  · intro hl h1 h2
    simp only [classifyKey, hl]
    rw [if_pos ⟨h1, h2⟩]
    refine ⟨?_, ?_, ?_⟩
    · show (copyFields base2 permuted (bucket.headD 0) (e.2.headD 0) ow st cols).numUpdated = _
      rw [copyFields_numUpdated]
    · show (copyFields base2 permuted (bucket.headD 0) (e.2.headD 0) ow st cols).numDuplicates = _
      rw [copyFields_numDuplicates]
    · show (copyFields base2 permuted (bucket.headD 0) (e.2.headD 0) ow st cols).numUnmatched = _
      rw [copyFields_numUnmatched]
  · intro hl hmem
    simp only [classifyKey, hl]
    rw [if_neg (by rintro ⟨_, hn⟩; exact hn hmem), if_pos hmem]
    simp
  · intro hl
    simp [classifyKey, hl]

/-- Witness for C1: the unique-match case applied to the two-field scenario —
the updated counter advances by the number of qualifying fields (here 2). -/
theorem C1_stats_semantics_witness :
    (lookupKey (buildKeyMapFrom baseTwoFields (pys "k") false colonD)
        (rsplitLast (pys "x:sku1") colonD) = some [0]) ∧
    (classifyKey (buildKeyMapFrom baseTwoFields (pys "k") false colonD) baseTwoFields
        secTwoFields [pys "A", pys "B"] false initLoopSt (pys "x:sku1", [0])).numUpdated
      = initLoopSt.numUpdated
        + ([pys "A", pys "B"].filter
            (updateCond baseTwoFields secTwoFields (([0] : List Nat).headD 0)
              (([0] : List Nat).headD 0) false)).length :=
  ⟨by rfl,
    ((C1_stats_semantics (buildKeyMapFrom baseTwoFields (pys "k") false colonD) baseTwoFields
      secTwoFields [pys "A", pys "B"] false initLoopSt (pys "x:sku1", [0]) [0]).1
      (by rfl) (by rfl) (by decide)).1⟩

/-- C1 counterexample: one secondary key, uniquely matched, with two fields
receiving pending updates — the printed `num_updated` is 2 although the
secondary table has a single key: `updated` counts fields, not secondary
keys. -/
theorem C1_counterexample :
    (permuted_key_join baseTwoFields secTwoFields (pys "k") (pys "k") [pys "A", pys "B"]
        false).2 = .ok ⟨2, 0, 0⟩ ∧
    (buildKeyMapFrom secTwoFields (pys "k") false colonD).length = 1 := by
  exact ⟨by rfl, by rfl⟩

/-- C2 (amended): in the repeat-match scenario with two *distinct* secondary
keys `"a:sku1"`, `"b:sku1"` whose leaves are both `"sku1"`, matching the one
base row: stats are `{updated 1, duplicate 1, unmatched 0}`, the first
secondary key wins (the base Account becomes `"A100"`), and no second copy
occurs.  (When the two secondary rows carry the *identical* key string the
dict collapses them and no duplicate is counted: see `C2_counterexample`.) -/
theorem C2_repeat_match_scenario :
    permuted_key_join baseSku secTwoDistinct (pys "Item Name/Number") (pys "Item")
        [pys "Account"] false
      = (({ columns := [pys "Item Name/Number", pys "Account"],
            rows := [[.str (pys "sku1"), .str (pys "A100")]] }, secTwoDistinct),
          .ok ⟨1, 1, 0⟩) := by
  rfl

/-- C2 counterexample: two secondary rows with the *identical* key `"sku1"`
both normalize to leaf `"sku1"` and match exactly one base row, yet the
stats are `{updated 1, duplicate 0, unmatched 0}` — not `{1, 1, 0}` — because
the key map collapses equal keys into one entry before the loop runs. -/
theorem C2_counterexample :
    (permuted_key_join baseSku secTwoSame (pys "Item Name/Number") (pys "Item")
        [pys "Account"] false).2 = .ok ⟨1, 0, 0⟩ := by
  rfl

/-- C3: the schema check of `permuted_key_join` fires immediately, before any
mutation — both dataframes come back unchanged — but the code executes
`return ValueError('Invalid Key Column(s)')` (pd_utils.py line 173): the
exception object is *returned as the function's value*, never raised,
contradicting the function's own `-> DataFrame` annotation and the
`raise ValueError` convention of its sibling functions.  Shown for a missing
base key column and for a missing secondary copy column. -/
theorem C3_schema_check_returns_error :
    permuted_key_join baseTwoFields secTwoFields (pys "missing") (pys "k") [pys "A"] false
      = ((baseTwoFields, secTwoFields), .returnedErrorValue) ∧
    permuted_key_join baseTwoFields secTwoFields (pys "k") (pys "k") [pys "missing"] false
      = ((baseTwoFields, secTwoFields), .returnedErrorValue) := by
  exact ⟨by rfl, by rfl⟩

/-- In the one-row unique-match family, the final value of the copied field
is governed exactly by the source's update condition
`(permuted_val and base_val != permuted_val) and (ENABLE_OVERWRITE or not base_val)`. -/
theorem join_policy_cell (b s : List Char) (ow : Bool) :
    (permuted_key_join (basePolicy b) (secPolicy s) (pys "k") (pys "k2") [pys "Account"]
        ow).1.1.cell 0 (pys "Account")
      = if s ≠ [] ∧ b ≠ s ∧ (ow = true ∨ b = []) then .str s else .str b := by
  rw [permuted_key_join_ok (basePolicy b) (secPolicy s) (pys "k") (pys "k2") [pys "Account"] ow
    ⟨rfl, rfl⟩]
  by_cases hcond : s ≠ [] ∧ b ≠ s ∧ (ow = true ∨ b = [])
  · have hup : updateCond (basePolicy b) (secPolicy s) 0 0 ow (pys "Account") = true :=
      decide_eq_true hcond
    rw [if_pos hcond]
    show (applyUpdates (basePolicy b)
        (if updateCond (basePolicy b) (secPolicy s) 0 0 ow (pys "Account") = true
          then (⟨[((0, pys "Account"), s)], [], 1, 0, 0⟩ : LoopSt)
          else initLoopSt).updateDict).cell 0 (pys "Account")
      = PyVal.str s
    rw [if_pos hup]
    rfl
  · have hup : updateCond (basePolicy b) (secPolicy s) 0 0 ow (pys "Account") = false :=
      decide_eq_false hcond
    rw [if_neg hcond]
    show (applyUpdates (basePolicy b)
        (if updateCond (basePolicy b) (secPolicy s) 0 0 ow (pys "Account") = true
          then (⟨[((0, pys "Account"), s)], [], 1, 0, 0⟩ : LoopSt)
          else initLoopSt).updateDict).cell 0 (pys "Account")
      = PyVal.str b
    rw [if_neg (by simp [hup])]
    rfl

/-- C4: over a unique match (the one-row family `basePolicy b` /
`secPolicy s`, field value `b` in the base, `s` in the secondary):
under NEVER_OVERWRITE (`ENABLE_OVERWRITE = false`) a nonempty base field
always keeps its value `b`, whatever `s` is; under OVERWRITE_IF_DIFFERENT
(`ENABLE_OVERWRITE = true`) the field becomes `s` exactly when `s` is
nonempty and differs from `b`, and stays `b` otherwise. -/
theorem C4_conflict_policy (b s : List Char) :
    (b ≠ [] →
      (permuted_key_join (basePolicy b) (secPolicy s) (pys "k") (pys "k2") [pys "Account"]
          false).1.1.cell 0 (pys "Account") = .str b) ∧
    ((permuted_key_join (basePolicy b) (secPolicy s) (pys "k") (pys "k2") [pys "Account"]
        true).1.1.cell 0 (pys "Account") = if s ≠ [] ∧ s ≠ b then .str s else .str b) := by
  constructor
  · intro hb
    rw [join_policy_cell b s false]
    rw [if_neg]
    rintro ⟨-, -, h⟩
    rcases h with h | h
    · exact Bool.false_ne_true h
    · exact hb h
  · rw [join_policy_cell b s true]
    by_cases h : s ≠ [] ∧ s ≠ b
    · rw [if_pos ⟨h.1, fun hbs => h.2 hbs.symm, Or.inl rfl⟩, if_pos h]
    · rw [if_neg, if_neg h]
      rintro ⟨h1, h2, -⟩
      exact h ⟨h1, fun hsb => h2 hsb.symm⟩

/-- Witness for C4: a nonempty base value survives under NEVER_OVERWRITE. -/
theorem C4_conflict_policy_witness :
    pys "keep" ≠ [] ∧
    (permuted_key_join (basePolicy (pys "keep")) (secPolicy (pys "new")) (pys "k") (pys "k2")
        [pys "Account"] false).1.1.cell 0 (pys "Account") = .str (pys "keep") :=
  ⟨by decide, (C4_conflict_policy (pys "keep") (pys "new")).1 (by decide)⟩

/-! ## Frame lemmas: what the merge leaves untouched -/

theorem colIdx_getD : ∀ {cols : List Col} {c : Col} {j : Nat},
    colIdx cols c = some j → cols.getD j [] = c := by
  intro cols
  induction cols with
  | nil => intro c j h; simp [colIdx] at h
  | cons c' rest ih =>
      intro c j h
      by_cases hc : c' = c
      · rw [colIdx, if_pos hc] at h
        injection h with h
        subst h
        simpa using hc
      · rw [colIdx, if_neg hc] at h
        cases hr : colIdx rest c with
        | none => rw [hr] at h; simp at h
        | some j' =>
            rw [hr] at h
            simp only [Option.map_some'] at h
            injection h with h
            subst h
            simpa using ih hr

theorem setCell_columns (df : DataFrame) (j : Nat) (c' : Col) (v : PyVal) :
    (df.setCell j c' v).columns = df.columns := by
  unfold DataFrame.setCell
  cases colIdx df.columns c' with
  | none => rfl
  | some jx =>
      cases df.rows.get? j with
      | none => rfl
      | some r => rfl

theorem applyUpdates_columns :
    ∀ (l : List ((Nat × Col) × List Char)) (df : DataFrame),
      (applyUpdates df l).columns = df.columns := by
  intro l
  induction l with
  | nil => intro df; rfl
  | cons e rest ih =>
      intro df
      show (applyUpdates (df.setCell e.1.1 e.1.2 (.str e.2)) rest).columns = _
      rw [ih, setCell_columns]

theorem setCell_cell_ne {df : DataFrame} {j : Nat} {c' : Col} {v : PyVal} {i : Nat} {c : Col}
    (hne : ¬ (j = i ∧ c' = c)) :
    (df.setCell j c' v).cell i c = df.cell i c := by
  unfold DataFrame.setCell
  cases hjc : colIdx df.columns c' with
  | none => rfl
  | some jx =>
      cases hrow : df.rows.get? j with
      | none => rfl
      | some r =>
          show DataFrame.cell { df with rows := df.rows.set j (r.set jx v) } i c = df.cell i c
          unfold DataFrame.cell
          by_cases hij : j = i
          · subst hij
            have hc'c : ¬ c' = c := fun h => hne ⟨rfl, h⟩
            rw [List.get?_set, if_pos rfl, hrow]
            simp only [Option.map_some']
            show rowCell df.columns (r.set jx v) c = rowCell df.columns r c
            unfold rowCell
            cases hcc : colIdx df.columns c with
            | none => rfl
            | some jc =>
                have hjj : jx ≠ jc := by
                  intro h
                  exact hc'c (by rw [← colIdx_getD hjc, h, colIdx_getD hcc])
                show (r.set jx v).getD jc (PyVal.str []) = r.getD jc (PyVal.str [])
                rw [List.getD_eq_get?, List.getD_eq_get?, List.get?_set, if_neg hjj]
          · rw [List.get?_set, if_neg hij]

theorem applyUpdates_cell_ne (i : Nat) (c : Col) :
    ∀ (l : List ((Nat × Col) × List Char)) (df : DataFrame),
      (∀ e ∈ l, ¬ (e.1.1 = i ∧ e.1.2 = c)) →
      (applyUpdates df l).cell i c = df.cell i c := by
  intro l
  induction l with
  | nil => intro df _; rfl
  | cons e rest ih =>
      intro df h
      show (applyUpdates (df.setCell e.1.1 e.1.2 (.str e.2)) rest).cell i c = _
      rw [ih _ fun e' he' => h e' (List.mem_cons_of_mem _ he')]
      exact setCell_cell_ne (h e (by simp))

theorem getD_append_default {l : List PyVal} {j : Nat} :
    (l ++ [PyVal.str []]).getD j (PyVal.str []) = l.getD j (PyVal.str []) := by
  rw [List.getD_eq_get?, List.getD_eq_get?]
  rcases Nat.lt_trichotomy j l.length with hj | hj | hj
  · rw [List.get?_append hj]
  · rw [List.get?_append_right (Nat.le_of_eq hj.symm),
      List.get?_eq_none.mpr (Nat.le_of_eq hj.symm)]
    have h0 : j - l.length = 0 := by omega
    rw [h0]
    rfl
  · rw [List.get?_append_right (Nat.le_of_lt hj),
      List.get?_eq_none.mpr (Nat.le_of_lt hj)]
    have h1 : ([PyVal.str []] : List PyVal).get? (j - l.length) = none := by
      rw [List.get?_eq_none]
      simp only [List.length_singleton]
      omega
    rw [h1]

theorem appendCol_cell {df : DataFrame} {c : Col} (x : Col)
    (h : (colIdx df.columns c).isSome = true) (i : Nat) :
    (DataFrame.cell
        { columns := df.columns ++ [x], rows := df.rows.map (· ++ [PyVal.str []]) } i c)
      = df.cell i c := by
  unfold DataFrame.cell
  rw [List.get?_map]
  cases hr : df.rows.get? i with
  | none => rfl
  | some r =>
      simp only [Option.map_some']
      show rowCell (df.columns ++ [x]) (r ++ [PyVal.str []]) c = rowCell df.columns r c
      unfold rowCell
      rw [colIdx_append_of_isSome h]
      cases hcc : colIdx df.columns c with
      | none => rfl
      | some j => exact getD_append_default

theorem addMissingCols_cell : ∀ (cols : List Col) (df : DataFrame) (c : Col),
    (colIdx df.columns c).isSome = true → ∀ i : Nat,
      (addMissingCols df cols).cell i c = df.cell i c := by
  intro cols
  induction cols with
  | nil => intro df c h i; rfl
  | cons x xs ih =>
      intro df c h i
      have hstep : addMissingCols df (x :: xs) = addMissingCols
          (if has_columns df [x] = true then df
           else { columns := df.columns ++ [x], rows := df.rows.map (· ++ [PyVal.str []]) })
          xs := rfl
      rw [hstep]
      split
      · exact ih df c h i
      · exact (ih _ c (by
          show (colIdx (df.columns ++ [x]) c).isSome = true
          rw [colIdx_append_of_isSome h]
          exact h) i).trans (appendCol_cell x h i)

theorem addMissingCols_columns : ∀ (cols : List Col) (df : DataFrame),
    ∃ ext, (addMissingCols df cols).columns = df.columns ++ ext ∧ ∀ x ∈ ext, x ∈ cols := by
  intro cols
  induction cols with
  | nil => intro df; exact ⟨[], by simp [addMissingCols], by simp⟩
  | cons x xs ih =>
      intro df
      have hstep : addMissingCols df (x :: xs) = addMissingCols
          (if has_columns df [x] = true then df
           else { columns := df.columns ++ [x], rows := df.rows.map (· ++ [PyVal.str []]) })
          xs := rfl
      rw [hstep]
      split
      · obtain ⟨ext, h1, h2⟩ := ih df
        exact ⟨ext, h1, fun y hy => List.mem_cons_of_mem _ (h2 y hy)⟩
      · obtain ⟨ext, h1, h2⟩ := ih
          { columns := df.columns ++ [x], rows := df.rows.map (· ++ [PyVal.str []]) }
        refine ⟨x :: ext, ?_, ?_⟩
        · rw [h1]
          simp
        · intro y hy
          rcases List.mem_cons.mp hy with h | h
          · subst h; simp
          · exact List.mem_cons_of_mem _ (h2 y h)

/-! ## The pending-update dictionary invariant -/

theorem mem_dictInsert : ∀ (d : List ((Nat × Col) × List Char)) (kk : Nat × Col)
    (v : List Char), ∀ e ∈ dictInsert d kk v, e.1 = kk ∨ e ∈ d := by
  intro d
  induction d with
  | nil =>
      intro kk v e he
      simp only [dictInsert, List.mem_singleton] at he
      subst he
      exact Or.inl rfl
  | cons e' rest ih =>
      obtain ⟨kv, vv⟩ := e'
      intro kk v e he
      simp only [dictInsert] at he
      split at he
      · rcases List.mem_cons.mp he with h | h
        · subst h; exact Or.inl rfl
        · exact Or.inr (List.mem_cons_of_mem _ h)
      · rcases List.mem_cons.mp he with h | h
        · subst h; exact Or.inr (by simp)
        · rcases ih kk v e h with h' | h'
          · exact Or.inl h'
          · exact Or.inr (List.mem_cons_of_mem _ h')

theorem copyFields_updateDict_mem (base2 permuted : DataFrame) (bidx pidx : Nat) (ow : Bool) :
    ∀ (cols : List Col) (st : LoopSt) (e : (Nat × Col) × List Char),
      e ∈ (copyFields base2 permuted bidx pidx ow st cols).updateDict →
      e ∈ st.updateDict ∨ (e.1.1 = bidx ∧ e.1.2 ∈ cols) := by
  intro cols
  induction cols with
  | nil => intro st e he; exact Or.inl he
  | cons c rest ih =>
      intro st e he
      have he' : e ∈ (copyFields base2 permuted bidx pidx ow
          (if updateCond base2 permuted bidx pidx ow c = true
            then { st with
                    updateDict := dictInsert st.updateDict (bidx, c)
                      ((permuted.cell pidx c).toStr),
                    numUpdated := st.numUpdated + 1 }
            else st) rest).updateDict := he
      rcases ih _ e he' with h | h
      · split at h
        · rcases mem_dictInsert _ _ _ e h with h' | h'
          · right
            constructor
            · rw [h']
            · rw [h']; simp
          · exact Or.inl h'
        · exact Or.inl h
      · exact Or.inr ⟨h.1, List.mem_cons_of_mem _ h.2⟩

theorem dictInv_init (bm : KeyMap) (cols : List Col) : dictInv bm cols initLoopSt := by
  intro e he
  simp [initLoopSt] at he

theorem dictInv_classifyKey {bm : KeyMap} {base2 permuted : DataFrame} {cols : List Col}
    {ow : Bool} {st : LoopSt} {e : Key × List Nat} (hd : dictInv bm cols st) :
    dictInv bm cols (classifyKey bm base2 permuted cols ow st e) := by
  cases hl : lookupKey bm (rsplitLast e.1 colonD) with
  | none =>
      simp only [classifyKey, hl]
      exact fun e' he' => hd e' he'
  | some bucket =>
      simp only [classifyKey, hl]
      by_cases hu : bucket.length = 1 ∧ rsplitLast e.1 colonD ∉ st.processedKeys
      · rw [if_pos hu]
        intro e' he'
        have he'' : e' ∈ (copyFields base2 permuted (bucket.headD 0) (e.2.headD 0) ow st
            cols).updateDict := he'
        rcases copyFields_updateDict_mem base2 permuted (bucket.headD 0) (e.2.headD 0) ow cols
            st e' he'' with h | h
        · obtain ⟨hcol, leaf', hmem', hlk'⟩ := hd e' h
          refine ⟨hcol, leaf', ?_, hlk'⟩
          show leaf' ∈ setInsert (copyFields base2 permuted (bucket.headD 0) (e.2.headD 0) ow st
              cols).processedKeys (rsplitLast e.1 colonD)
          rw [copyFields_processedKeys]
          exact subset_setInsert _ _ _ hmem'
        · refine ⟨h.2, rsplitLast e.1 colonD, ?_, ?_⟩
          · show rsplitLast e.1 colonD ∈ setInsert (copyFields base2 permuted (bucket.headD 0)
                (e.2.headD 0) ow st cols).processedKeys (rsplitLast e.1 colonD)
            exact self_mem_setInsert _ _
          · have hb : bucket = [bucket.headD 0] := by
              cases bucket with
              | nil => exact absurd hu.1 (by simp)
              | cons y ys =>
                  cases ys with
                  | nil => rfl
                  | cons z zs => exact absurd hu.1 (by simp)
            rw [hl, hb, h.1]
      · rw [if_neg hu]
        split
        · exact fun e' he' => hd e' he'
        · exact hd

theorem dictInv_foldl {bm : KeyMap} {base2 permuted : DataFrame} {cols : List Col}
    {ow : Bool} :
    ∀ (l : List (Key × List Nat)) (st : LoopSt), dictInv bm cols st →
      dictInv bm cols (l.foldl (classifyKey bm base2 permuted cols ow) st) := by
  intro l
  induction l with
  | nil => intro st h; exact h
  | cons e rest ih => intro st h; exact ih _ (dictInv_classifyKey h)

/-- C10 (amended): for every non-failing merge, the secondary table is
returned unchanged; the result schema is the base schema extended (at the
end) by the missing `cols_to_add` columns; every base cell outside the
`cols_to_add` columns keeps its original value; and any cell that differs
from its pre-pass value lies in a `cols_to_add` column of a base row that is
the singleton bucket of a processed (uniquely matched) leaf.  The unamended
"the entire key column keeps its original value" fails when `base_key_col`
itself is listed in `cols_to_add`: see `C10_counterexample`. -/
theorem C10_frame (base_df permuted_df : DataFrame) (base_key_col permuted_key_col : Col)
    (cols_to_add : List Col) (enable_overwrite : Bool)
    (hg : has_columns base_df [base_key_col] = true ∧
          has_columns permuted_df ([permuted_key_col] ++ cols_to_add) = true) :
    ((permuted_key_join base_df permuted_df base_key_col permuted_key_col cols_to_add
        enable_overwrite).1.2 = permuted_df) ∧
    (∃ ext, (permuted_key_join base_df permuted_df base_key_col permuted_key_col cols_to_add
        enable_overwrite).1.1.columns = base_df.columns ++ ext ∧
        ∀ x ∈ ext, x ∈ cols_to_add) ∧
    (∀ i c, (colIdx base_df.columns c).isSome = true → c ∉ cols_to_add →
      (permuted_key_join base_df permuted_df base_key_col permuted_key_col cols_to_add
          enable_overwrite).1.1.cell i c = base_df.cell i c) ∧
    (∀ i c,
      (permuted_key_join base_df permuted_df base_key_col permuted_key_col cols_to_add
          enable_overwrite).1.1.cell i c
        ≠ (addMissingCols base_df cols_to_add).cell i c →
      c ∈ cols_to_add ∧
      ∃ leaf ∈ (joinFinalState base_df permuted_df base_key_col permuted_key_col cols_to_add
          enable_overwrite).processedKeys,
        lookupKey
          (buildKeyMapFrom (addMissingCols base_df cols_to_add) base_key_col false colonD)
          leaf = some [i]) := by
  have hjoin := permuted_key_join_ok base_df permuted_df base_key_col permuted_key_col
    cols_to_add enable_overwrite hg
  have hdi : dictInv
      (buildKeyMapFrom (addMissingCols base_df cols_to_add) base_key_col false colonD)
      cols_to_add
      (joinFinalState base_df permuted_df base_key_col permuted_key_col cols_to_add
        enable_overwrite) :=
    dictInv_foldl _ _ (dictInv_init _ _)
  refine ⟨?_, ?_, ?_, ?_⟩
  · rw [hjoin]
  · obtain ⟨ext, hext, hmem⟩ := addMissingCols_columns cols_to_add base_df
    refine ⟨ext, ?_, hmem⟩
    rw [hjoin]
    show (applyUpdates (addMissingCols base_df cols_to_add)
        (joinFinalState base_df permuted_df base_key_col permuted_key_col cols_to_add
          enable_overwrite).updateDict).columns = base_df.columns ++ ext
    rw [applyUpdates_columns]
    exact hext
  · intro i c hc hcn
    rw [hjoin]
    show (applyUpdates (addMissingCols base_df cols_to_add)
        (joinFinalState base_df permuted_df base_key_col permuted_key_col cols_to_add
          enable_overwrite).updateDict).cell i c = base_df.cell i c
    refine (applyUpdates_cell_ne i c _ _ ?_).trans (addMissingCols_cell cols_to_add base_df c hc i)
    intro e he
    rintro ⟨-, h2⟩
    obtain ⟨hcol, -⟩ := hdi e he
    rw [h2] at hcol
    exact hcn hcol
  · intro i c hne
    rw [hjoin] at hne
    have hne' : (applyUpdates (addMissingCols base_df cols_to_add)
        (joinFinalState base_df permuted_df base_key_col permuted_key_col cols_to_add
          enable_overwrite).updateDict).cell i c
        ≠ (addMissingCols base_df cols_to_add).cell i c := hne
    have hex : ∃ e ∈ (joinFinalState base_df permuted_df base_key_col permuted_key_col
        cols_to_add enable_overwrite).updateDict, e.1.1 = i ∧ e.1.2 = c := by
      by_contra hall
      push_neg at hall
      exact hne' (applyUpdates_cell_ne i c _ _ fun e he => by
        intro hpair
        exact (hall e he hpair.1) hpair.2)
    obtain ⟨e, he, h1, h2⟩ := hex
    obtain ⟨hcol, leaf, hlmem, hlk⟩ := hdi e he
    refine ⟨h2 ▸ hcol, leaf, hlmem, ?_⟩
    rw [← h1]
    exact hlk

/-- Witness for C10: in the repeat-match scenario, the key cell of the base
row is untouched by the merge. -/
theorem C10_frame_witness :
    ((colIdx baseSku.columns (pys "Item Name/Number")).isSome = true ∧
      (pys "Item Name/Number") ∉ [pys "Account"]) ∧
    (permuted_key_join baseSku secTwoDistinct (pys "Item Name/Number") (pys "Item")
        [pys "Account"] false).1.1.cell 0 (pys "Item Name/Number")
      = baseSku.cell 0 (pys "Item Name/Number") :=
  ⟨⟨by rfl, by decide⟩,
    (C10_frame baseSku secTwoDistinct (pys "Item Name/Number") (pys "Item") [pys "Account"]
      false ⟨by rfl, by rfl⟩).2.2.1 0 (pys "Item Name/Number") (by rfl) (by decide)⟩

/-- C10 counterexample: when `base_key_col` itself appears in `cols_to_add`
(here the single column `k`), a unique match overwrites the base key cell:
it changes from `"sku1"` to `"x:sku1"`, so the key column does not always
keep its original value. -/
theorem C10_counterexample :
    (permuted_key_join baseKeyCopied secKeyCopied (pys "k") (pys "k") [pys "k"]
        true).1.1.cell 0 (pys "k") = .str (pys "x:sku1") ∧
    baseKeyCopied.cell 0 (pys "k") = .str (pys "sku1") ∧
    pys "x:sku1" ≠ pys "sku1" := by
  exact ⟨by rfl, by rfl, by decide⟩

end PyU
